import Mathlib

/-!
Shallow embedding of the embedded-random-forest repository:

* crate embedded-rforest (src/embedded-rforest): the optimized forest
  container, its byte-level serialization and validating deserialization,
  and the ensemble prediction engine (namespace ERF);
* crate forest-optimizer (src/forest-optimizer): the flattening and
  leaf-inlining transform from the intermediate per-tree forest to the
  dense Branch array (namespace Opt).

Machine integers are modelled as Nat with explicit ranges where the code
relies on them; fallible operations return Option, and assertion failures
of the Rust code (panics) are modelled as a distinct outcome so that a
returned error can never be confused with a panic.  Finite f32 values are
modelled by their exact rational value; the raw 32-bit pattern of an f32
is carried as a Nat wherever the code only copies the bits.
-/

namespace ERF

/-- Little-endian read of two bytes. -/
def le2 (a b : Nat) : Nat := a + 256 * b

/-- Little-endian read of four bytes. -/
def le4 (a b c d : Nat) : Nat := a + 256 * b + 65536 * c + 16777216 * d

/-- Byte i of a buffer modelled as a list (reads past the end give 0; the
code never performs them under its length guards). -/
def byteAt (l : List Nat) (i : Nat) : Nat := l.getD i 0

/-- Little-endian two-byte encoding of a u16 value. -/
def u16le (n : Nat) : List Nat := [n % 256, n / 256 % 256]

/-- Little-endian four-byte encoding of a u32 value. -/
def u32le (n : Nat) : List Nat :=
  [n % 256, n / 256 % 256, n / 65536 % 256, n / 16777216 % 256]

/-- Flags accessor, src/embedded-rforest/src/forest.rs Flags::left_prediction:
bit 31 of the 32-bit flag word marks the left child as a terminal value. -/
def Flags.left_prediction (f : Nat) : Bool := (f >>> 31) &&& 1 != 0

/-- Flags accessor, Flags::right_prediction: bit 30 marks the right child as
a terminal value. -/
def Flags.right_prediction (f : Nat) : Bool := (f >>> 30) &&& 1 != 0

/-- Flags accessor, Flags::split_var_idx: the low 30 bits are the index of
the feature tested by the branch. -/
def Flags.split_var_idx (f : Nat) : Nat := f &&& 1073741823

/-- Flags::new, src/embedded-rforest/src/forest.rs: pack the split variable
index with the two terminal-flag bits.  The Rust code asserts
split_var_idx less than 2 to the 30 before packing; callers of the model
carry that bound as a hypothesis where it matters. -/
def Flags.new (split_var_idx : Nat) (left_is_prediction right_is_prediction : Bool) : Nat :=
  split_var_idx |||
    (cond left_is_prediction 1 0) <<< 31 |||
    (cond right_is_prediction 1 0) <<< 30

/-- Branch, src/embedded-rforest/src/forest.rs: the fixed 12-byte node
record.  left and right are the raw u16 node-pointer values; splitBits is
the raw 32-bit pattern of the little-endian f32 split threshold (the code
only ever copies these bits; they are decoded to a rational by f32val at
the comparison site); flags is the 32-bit flag word. -/
structure Branch where
  left : Nat
  right : Nat
  splitBits : Nat
  flags : Nat
deriving DecidableEq, Repr

/-- Branch::new, src/embedded-rforest/src/forest.rs. -/
def Branch.new (split_with : Nat) (splitBits : Nat) (left right : Nat)
    (left_leaf right_leaf : Bool) : Branch :=
  { left := left, right := right, splitBits := splitBits,
    flags := Flags.new split_with left_leaf right_leaf }

/-- Error, src/embedded-rforest/src/lib.rs. -/
inductive Error where
  | wrongProblemType
  | malformedForest
deriving DecidableEq, Repr

/-- Outcome of OptimizedForest::deserialize.  The Rust function either
returns Ok, returns Err, or fails one of its assert! statements; the
panic constructor models the latter so that rejection by panic is kept
distinct from rejection by returned error. -/
inductive DResult (α : Type) where
  | ok (f : α)
  | err (e : Error)
  | panic
deriving DecidableEq, Repr

/-- OptimizedForest, src/embedded-rforest/src/forest.rs: header fields plus
the borrowed Branch slice.  num_targets mirrors the Option NonZeroU8 field
(none means regression, some t with t nonzero means classification). -/
structure OptimizedForest where
  num_trees : Nat
  num_features : Nat
  num_targets : Option Nat
  nodes : List Branch
deriving DecidableEq, Repr

/-- Parse one 12-byte chunk as a Branch record exactly as the zerocopy cast
in deserialize reads it: bytes 0-1 left (LE u16), 2-3 right (LE u16),
4-7 the f32 bit pattern (LE), 8-11 flags (LE u32). -/
def parseBranch (l : List Nat) : Branch :=
  { left := le2 (byteAt l 0) (byteAt l 1),
    right := le2 (byteAt l 2) (byteAt l 3),
    splitBits := le4 (byteAt l 4) (byteAt l 5) (byteAt l 6) (byteAt l 7),
    flags := le4 (byteAt l 8) (byteAt l 9) (byteAt l 10) (byteAt l 11) }

/-- Parse n consecutive 12-byte Branch records. -/
def parseN : Nat → List Nat → List Branch
  | 0, _ => []
  | n + 1, l => parseBranch (l.take 12) :: parseN n (l.drop 12)

/-- The check applied by the validation pass of deserialize to a single
Branch: a child whose flag marks it as a further branch must have its
pointer strictly below the node-array length n. -/
def branchInBounds (n : Nat) (b : Branch) : Bool :=
  (Flags.left_prediction b.flags || decide (b.left < n)) &&
  (Flags.right_prediction b.flags || decide (b.right < n))

/-- OptimizedForest::deserialize, src/embedded-rforest/src/forest/deserialize.rs.
hasTargets is the HAS_TARGETS constant of the static problem-type
parameter P (true for Classification, false for Regression); addr is the
numeric base address of the buffer and align the value of
align_of::<OptimizedForest> on the target (4 or 8 depending on pointer
width).  The two assert! statements (alignment, minimum length) and the
assert_eq! on the node-array remainder become the panic outcome; the
problem-type guard and the pointer validation pass return errors. -/
def deserialize (hasTargets : Bool) (addr align : Nat) (buffer : List Nat) :
    DResult OptimizedForest :=
  if addr % align ≠ 0 then .panic
  else if buffer.length < 20 then .panic
  else
    let num_trees := le4 (byteAt buffer 0) (byteAt buffer 1) (byteAt buffer 2) (byteAt buffer 3)
    let num_features := byteAt buffer 4
    let num_targets : Option Nat :=
      if byteAt buffer 5 = 0 then none else some (byteAt buffer 5)
    if (num_targets.isSome && !hasTargets) || (num_targets.isNone && hasTargets) then
      .err .wrongProblemType
    else
      let slice_size := buffer.length - 8
      if slice_size % 12 ≠ 0 then .panic
      else
        let slice_len := slice_size / 12
        let branch_slice := parseN slice_len (buffer.drop 8)
        if branch_slice.all (branchInBounds slice_len) then
          .ok { num_trees := num_trees, num_features := num_features,
                num_targets := num_targets, nodes := branch_slice }
        else .err .malformedForest

/-- Byte image of one Branch record, as produced by zerocopy IntoBytes for
the repr(C) Branch struct: left, right, split bits, flags, all
little-endian, 12 bytes. -/
def branchBytes (b : Branch) : List Nat :=
  u16le b.left ++ u16le b.right ++ u32le b.splitBits ++ u32le b.flags

/-- OptimizedForest::to_bytes, src/embedded-rforest/src/forest/serialize.rs:
num_trees (u32 LE), num_features (u8), num_targets byte (0 when none),
two padding bytes, then every node record in order. -/
def OptimizedForest.to_bytes (f : OptimizedForest) : List Nat :=
  u32le f.num_trees ++ [f.num_features] ++
    [match f.num_targets with | some b => b | none => 0] ++
    [0, 0] ++ f.nodes.flatMap branchBytes

/-- Exact rational value of a finite f32 from its 32-bit pattern (sign bit,
8 exponent bits, 23 mantissa bits).  The model covers the finite floats the
program stores; the patterns with exponent 255 (infinities, NaN) are not
given a meaning and simply map to a large rational, which no claim relies
on. -/
def f32val (b : Nat) : ℚ :=
  let s : ℚ := if b / 2 ^ 31 % 2 = 1 then -1 else 1
  let e : Nat := b / 2 ^ 23 % 2 ^ 8
  let m : ℚ := (b % 2 ^ 23 : Nat)
  if e = 0 then s * m / 2 ^ 149
  else s * (2 ^ 23 + m) * 2 ^ e / 2 ^ 150

instance : Inhabited Branch := ⟨⟨0, 0, 0, 0⟩⟩

/-- Branch::split_at through F32::get: decode the stored bits. -/
def Branch.split_at (b : Branch) : ℚ := f32val b.splitBits

/-- Branch::split_with. -/
def Branch.split_with (b : Branch) : Nat := Flags.split_var_idx b.flags

/-- One tree traversal of the classification predictor
(src/embedded-rforest/src/forest.rs, the loop inside
OptimizedForest::<Classification>::predict).  features[i] is read as
feats.getD i 0 (the Rust get_unchecked has the vector length as a caller
precondition) and the unchecked child lookups read nodes.getD.  The loop
has no bound in Rust; fuel bounds the recursion and exceeds the length of
any forward-reference chain whenever it is at least nodes.length + 1, so
the model agrees with the code on every terminating traversal. -/
def treeGo (nodes : List Branch) (feats : List ℚ) : Nat → Branch → Nat
  | 0, _ => 0
  | fuel + 1, node =>
    let test := feats.getD node.split_with 0 ≤ node.split_at
    if test then
      if Flags.left_prediction node.flags then node.left
      else treeGo nodes feats fuel (nodes.getD node.left default)
    else if Flags.right_prediction node.flags then node.right
    else treeGo nodes feats fuel (nodes.getD node.right default)

/-- The terminal value produced by tree number t (root at array slot t). -/
def treePredict (f : OptimizedForest) (feats : List ℚ) (t : Nat) : Nat :=
  treeGo f.nodes feats (f.nodes.length + 1) (f.nodes.getD t default)

/-- One vote registration on the heapless LinearMap tally: an existing key
is incremented via get_mut, a new key is inserted with count 0 at the end
(insertion order is iteration order for LinearMap).  The Rust map has
capacity 255 and insert().unwrap() panics beyond it; the model appends
unconditionally, which agrees with the code whenever at most 255 distinct
class ids occur (the format's u8 target count bounds a well-formed model
to 255 classes). -/
def addVote (votes : List (Nat × Nat)) (p : Nat) : List (Nat × Nat) :=
  if votes.any (fun kv => kv.1 == p) then
    votes.map (fun kv => if kv.1 == p then (kv.1, kv.2 + 1) else kv)
  else votes ++ [(p, 0)]

/-- Fold step of Iterator::max_by_key over the tally: the running maximum
is replaced whenever the next count is greater or equal, so among equal
counts the element seen last wins (Rust max_by_key returns the last
maximal element). -/
def maxGo (best : Nat × Nat) : List (Nat × Nat) → Nat × Nat
  | [] => best
  | kv :: t => maxGo (if best.2 ≤ kv.2 then kv else best) t

/-- votes.into_iter().max_by_key(count).map(key): none only on an empty
tally (where the Rust unwrap would panic). -/
def maxByCountLast : List (Nat × Nat) → Option (Nat × Nat)
  | [] => none
  | kv :: t => some (maxGo kv t)

/-- The per-tree prediction sequence, in tree order. -/
def predsList (f : OptimizedForest) (feats : List ℚ) : List Nat :=
  (List.range f.num_trees).map (treePredict f feats)

/-- OptimizedForest::<Classification>::predict,
src/embedded-rforest/src/forest.rs: run every tree, tally the votes, and
return the key chosen by max_by_key.  none models the final unwrap panic
on an empty tally (num_trees = 0). -/
def classPredict (f : OptimizedForest) (feats : List ℚ) : Option Nat :=
  let votes := (List.range f.num_trees).foldl
    (fun vs t => addVote vs (treePredict f feats t)) []
  (maxByCountLast votes).map Prod.fst

/-- A child pointer of the Branch violates the bounds demanded by the
validation pass: its flag marks it as a further branch and its pointer is
not strictly below the node-array length n. -/
def badChild (n : Nat) (b : Branch) : Prop :=
  (Flags.left_prediction b.flags = false ∧ n ≤ b.left) ∨
  (Flags.right_prediction b.flags = false ∧ n ≤ b.right)

instance (n : Nat) (b : Branch) : Decidable (badChild n b) := by
  unfold badChild; infer_instance

/-- Field ranges of a Branch as stored by the Rust struct (u16 pointers,
u32 split bits and flag word). -/
def Branch.wf (b : Branch) : Prop :=
  b.left < 65536 ∧ b.right < 65536 ∧ b.splitBits < 4294967296 ∧ b.flags < 4294967296

instance (b : Branch) : Decidable b.wf := by unfold Branch.wf; infer_instance

/-- Field ranges of a validly constructed OptimizedForest (u32 num_trees,
u8 num_features, nonzero u8 target count when classification, in-range
node records). -/
def OptimizedForest.wf (f : OptimizedForest) : Prop :=
  f.num_trees < 4294967296 ∧ f.num_features < 256 ∧
  (∀ t, f.num_targets = some t → 0 < t ∧ t < 256) ∧
  ∀ b ∈ f.nodes, b.wf

instance (f : OptimizedForest) : Decidable f.wf := by
  unfold OptimizedForest.wf; infer_instance

/-- The distinct values of a list in order of first occurrence: this is the
key order of the LinearMap tally, because addVote appends a key the first
time it is seen and only updates it afterwards. -/
def firstOccs (l : List Nat) : List Nat :=
  l.foldl (fun acc p => if p ∈ acc then acc else acc ++ [p]) []

/-- Largest count appearing in a tally. -/
def maxVal : List (Nat × Nat) → Nat
  | [] => 0
  | kv :: t => max kv.2 (maxVal t)

/-- The two-tree classification forest of the end-to-end example: tree 0
splits feature 0 at 0.5 with terminal classes 1 (left) and 2 (right);
tree 1 splits feature 1 at 1.0 with terminal class 1 on both sides.
Split thresholds are stored as f32 bit patterns, flag words carry both
terminal bits plus the feature index. -/
def exampleTieForest : OptimizedForest :=
  { num_trees := 2, num_features := 2, num_targets := some 3,
    nodes :=
      [{ left := 1, right := 2, splitBits := 1056964608, flags := 3221225472 },
       { left := 1, right := 1, splitBits := 1065353216, flags := 3221225473 }] }

/-- A 20-byte buffer whose single Branch record has a non-terminal left
pointer of 5, far beyond the node-array length 1 (flag word sets only the
right-terminal bit). -/
def badPtrBuffer : List Nat :=
  [1, 0, 0, 0, 2, 1, 0, 0, 5, 0, 0, 0, 0, 0, 0, 0, 0, 0, 0, 64]

/-- A one-node classification forest with both children terminal, used to
exercise the serialization round trip. -/
def roundTripForest : OptimizedForest :=
  { num_trees := 2, num_features := 3, num_targets := some 4,
    nodes := [{ left := 1, right := 7, splitBits := 1056964608,
                flags := 3221225474 }] }

end ERF

namespace Opt

/-- Branch of the intermediate (non-optimized) forest,
src/forest-optimizer/src/forest.rs: split feature id, split threshold
(f32, carried as its raw bit pattern because the transform only copies
it), and the two child indices (u32). -/
structure Branch where
  split_with : Nat
  split_at : Nat
  left : Nat
  right : Nat
deriving DecidableEq, Repr

/-- Node of the intermediate forest: a Leaf holding a prediction of the
problem-type output (class id for classification, numeric value for
regression) or a Branch. -/
inductive Node (π : Type) where
  | leaf (prediction : π)
  | branch (b : Branch)
deriving DecidableEq, Repr

/-- Node::is_branch. -/
def Node.is_branch {π : Type} : Node π → Bool
  | .branch _ => true
  | .leaf _ => false

/-- Node::is_leaf. -/
def Node.is_leaf {π : Type} : Node π → Bool
  | .leaf _ => true
  | .branch _ => false

/-- Node::offset, src/forest-optimizer/src/forest.rs: shift a Branch's
child pointers by the number of slots consumed by the preceding trees'
non-root nodes plus the roots stored ahead; leaves are unchanged. -/
def Node.offset {π : Type} (n : Node π) (tree_sizes : List Nat) (tree_index : Nat) : Node π :=
  let off := (tree_sizes.take tree_index).sum + tree_sizes.length - (tree_index + 1)
  match n with
  | .leaf p => .leaf p
  | .branch b => .branch { b with left := b.left + off, right := b.right + off }

/-- One row of the intermediate forest as the flattening transform
consumes it: the 1-based tree ordinal, the 1-based in-tree node ordinal,
and the node itself.  Name resolution and the 1-based to 0-based child
conversion are performed by SerializedNode::normalize/the external loader
before this point, so a Branch's left and right here are 0-based node
ordinals within its own tree. -/
structure SNode (π : Type) where
  tree_idx : Nat
  node_idx : Nat
  node : Node π
deriving DecidableEq, Repr

/-- The non-optimized flattened forest, src/forest-optimizer/src/forest.rs. -/
structure Forest (π : Type) where
  num_trees : Nat
  nodes : List (Node π)
deriving DecidableEq, Repr

/-- The sorted tree ordinals of all root rows (in-tree ordinal 1). -/
def sortedRootIdxs {π : Type} (input : List (SNode π)) : List Nat :=
  (((input.filter (fun n => n.node_idx == 1)).map SNode.tree_idx)).insertionSort (· ≤ ·)

/-- The per-tree node lists: for each tree, its rows sorted by in-tree
ordinal (sort_by is stable; insertion sort is the stable sort used by the
model), ordinals dropped. -/
def treesOf {π : Type} (input : List (SNode π)) (num_trees : Nat) : List (List (Node π)) :=
  (List.range num_trees).map (fun i =>
    (((input.filter (fun n => n.tree_idx == i + 1)).map
        (fun n => (n.node_idx, n.node))).insertionSort (fun a b => a.1 ≤ b.1)).map Prod.snd)

/-- The final assertion of Forest::from_serialized: every Branch at
flattened index i references only strictly larger indices. -/
def forwardOnly {π : Type} (nodes : List (Node π)) : Bool :=
  nodes.enum.all fun jn =>
    match jn.2 with
    | .branch b => decide (jn.1 < b.left) && decide (jn.1 < b.right)
    | .leaf _ => true

/-- Forest::from_serialized, src/forest-optimizer/src/forest.rs: discover
the roots (ordinal 1), require contiguous tree numbering from 1, sort
each tree's nodes, lay out all offset-adjusted roots first followed by
each tree's remaining nodes tree by tree, and require forward-only
references.  The two assert! failures are modelled as none. -/
def from_serialized {π : Type} (input : List (SNode π)) : Option (Forest π) :=
  let tree_roots := sortedRootIdxs input
  if tree_roots.enum.all (fun iv => iv.2 == iv.1 + 1) then
    let trees := treesOf input tree_roots.length
    let tree_sizes := trees.map List.length
    let forest_nodes :=
      trees.enum.map (fun it => (it.2.headD (.branch ⟨0, 0, 0, 0⟩)).offset tree_sizes it.1) ++
      trees.enum.flatMap (fun it => (it.2.drop 1).map (fun n => n.offset tree_sizes it.1))
    if forwardOnly forest_nodes then
      some { num_trees := tree_sizes.length, nodes := forest_nodes }
    else none
  else none

/-- Rewrite a node's child pointers by a fixed offset (claim-side helper
for stating the layout formula). -/
def offsetNodeBy {π : Type} (k : Nat) : Node π → Node π
  | .leaf p => .leaf p
  | .branch b => .branch { b with left := b.left + k, right := b.right + k }

/-- TransitionNode: the looked-ahead child of a branch during
optimization - either an inlined leaf prediction or the flattened index
of a further branch (classification: predictions are class ids). -/
inductive TransitionNode where
  | leaf (v : Nat)
  | branch (idx : Nat)
deriving DecidableEq, Repr

/-- TransitionBranch: a branch annotated with its dense optimized id and
looked-ahead children. -/
structure TransitionBranch where
  id : Nat
  split_with : Nat
  split_at : Nat
  left : TransitionNode
  right : TransitionNode
deriving DecidableEq, Repr

/-- TransitionBranch::from_node: leaves yield none (and are dropped); a
branch looks ahead into the flattened array at its child indices to
decide leaf vs branch.  Rust indexes nodes[child] and panics out of
bounds; the model reads getD with a junk leaf, and the C9 theorem carries
the in-bounds hypothesis under which the two agree. -/
def TransitionBranch.from_node (nodes : List (Node Nat)) (node : Node Nat) (id : Nat) :
    Option TransitionBranch :=
  match node with
  | .leaf _ => none
  | .branch b =>
    some { id := id, split_with := b.split_with, split_at := b.split_at,
           left := match nodes.getD b.left (.leaf 0) with
             | .leaf l => .leaf l
             | .branch _ => .branch b.left,
           right := match nodes.getD b.right (.leaf 0) with
             | .leaf l => .leaf l
             | .branch _ => .branch b.right }

/-- First pass of Forest::optimize_nodes: walk the nodes with a running
branch counter, incrementing on each branch, and hand every node the id
branch_idx - 1 (the id is only meaningful for branches, for which the
counter was just incremented; leaves discard it). -/
def pass1 (all : List (Node Nat)) : List (Node Nat) → Nat → List (Option TransitionBranch)
  | [], _ => []
  | n :: rest, branch_idx =>
    let bidx := if n.is_branch then branch_idx + 1 else branch_idx
    TransitionBranch.from_node all n (bidx - 1) :: pass1 all rest bidx

/-- Child resolution inside UpdatePointers for Classification: a leaf
child becomes the inlined terminal value with the flag set; a branch
child looks up the sibling transition entry and takes its dense id (the
Rust question-mark operator turns a missing entry into None). -/
def resolveChild (nodes : List (Option TransitionBranch)) :
    TransitionNode → Option (Bool × Nat)
  | .leaf l => some (true, l)
  | .branch b => (nodes.getD b none).map (fun nb => (false, nb.id))

/-- UpdatePointers::update_pointers for Classification,
src/forest-optimizer/src/forest.rs. -/
def update_pointers (nodes : List (Option TransitionBranch))
    (branch : Option TransitionBranch) : Option ERF.Branch :=
  branch.bind fun br =>
    (resolveChild nodes br.left).bind fun lc =>
      (resolveChild nodes br.right).map fun rc =>
        ERF.Branch.new br.split_with br.split_at lc.2 rc.2 lc.1 rc.1

/-- Forest::optimize_nodes (classification): assign dense ids in a first
pass, then rewrite every branch's children against the transition array,
keeping the Some results in order (leaves drop out). -/
def optimize_nodes (nodes : List (Node Nat)) : List ERF.Branch :=
  let trans := pass1 nodes nodes 0
  (trans.map (update_pointers trans)).filterMap id

/-- Number of Branch nodes strictly before flattened index j - the dense
optimized id the branch at j receives. -/
def branchRank (nodes : List (Node Nat)) (j : Nat) : Nat :=
  ((nodes.take j).filter Node.is_branch).length

/-- Claim-side child rewrite: a leaf child is inlined as its raw terminal
class id with the terminal flag set; a branch child becomes that branch's
dense optimized id with the flag clear. -/
def childInline (nodes : List (Node Nat)) (c : Nat) : Bool × Nat :=
  match nodes.getD c (.leaf 0) with
  | .leaf p => (true, p)
  | .branch _ => (false, branchRank nodes c)

/-- Claim-side row output of optimize_nodes for the node at flattened
index jn.1. -/
def optSpecFn (nodes : List (Node Nat)) (jn : Nat × Node Nat) : Option ERF.Branch :=
  match jn.2 with
  | .leaf _ => none
  | .branch b =>
    some (ERF.Branch.new b.split_with b.split_at
      (childInline nodes b.left).2 (childInline nodes b.right).2
      (childInline nodes b.left).1 (childInline nodes b.right).1)

/-- Well-formedness of one flattened node as the second optimization pass
relies on it: a Branch's two child indices stay inside the node array
(Rust would panic on the lookup otherwise).  Leaves impose nothing. -/
def branchBounded (len : Nat) : Node Nat → Prop
  | .leaf _ => True
  | .branch b => b.left < len ∧ b.right < len

instance (len : Nat) (n : Node Nat) : Decidable (branchBounded len n) :=
  match n with
  | .leaf _ => isTrue trivial
  | .branch b => inferInstanceAs (Decidable (b.left < len ∧ b.right < len))

/-- Traversal loop shared by Forest::predict: walk branches by comparing
the tested feature against the split threshold (decoded from its f32
bits), stop at a leaf and return its prediction.  Fuel bounds the
recursion; with fuel above the node count it agrees with the Rust loop on
every terminating traversal. -/
def goNode (nodes : List (Node ℚ)) (feats : List ℚ) : Nat → Node ℚ → ℚ
  | 0, _ => 0
  | _, .leaf l => l
  | fuel + 1, .branch b =>
    if feats.getD b.split_with 0 ≤ ERF.f32val b.split_at then
      goNode nodes feats fuel (nodes.getD b.left (.leaf 0))
    else goNode nodes feats fuel (nodes.getD b.right (.leaf 0))

/-- Forest::<Regression>::predict, src/forest-optimizer/src/forest.rs:
descend each tree from its root at slot tree_id, accumulate the selected
terminal values and divide by num_trees.  The f32 accumulation is
modelled in exact rational arithmetic (exact for the values of the
specification's example). -/
def Forest.predict (F : Forest ℚ) (feats : List ℚ) : ℚ :=
  ((List.range F.num_trees).map
    (fun t => goNode F.nodes feats (F.nodes.length + 1) (F.nodes.getD t (.leaf 0)))).sum /
  F.num_trees

/-- The specification's two-tree regression example, flattened: roots
first, each tree a single branch over feature 0 (thresholds 0.5 and 0.25
as f32 bit patterns) with terminal leaves 10.0 and 20.0. -/
def exampleRegForest : Forest ℚ :=
  { num_trees := 2,
    nodes := [.branch ⟨0, 1056964608, 2, 3⟩, .branch ⟨0, 1048576000, 4, 5⟩,
      .leaf 10, .leaf 20, .leaf 10, .leaf 20] }

/-- A six-row intermediate forest: two trees of three nodes each (root
branch plus two leaves), tree ordinals 1 and 2, in-tree ordinals 1 to 3,
with 0-based per-tree child ordinals 1 and 2 on each root. -/
def sampleRows : List (SNode Nat) :=
  [⟨1, 1, .branch ⟨0, 1056964608, 1, 2⟩⟩, ⟨1, 2, .leaf 1⟩, ⟨1, 3, .leaf 2⟩,
   ⟨2, 1, .branch ⟨1, 1065353216, 1, 2⟩⟩, ⟨2, 2, .leaf 1⟩, ⟨2, 3, .leaf 1⟩]

/-- The flattened form of sampleRows: the two roots first with children
offset by 1 and 3, then each tree's leaves. -/
def sampleFlatForest : Forest Nat :=
  { num_trees := 2,
    nodes := [.branch ⟨0, 1056964608, 2, 3⟩, .branch ⟨1, 1065353216, 4, 5⟩,
      .leaf 1, .leaf 2, .leaf 1, .leaf 1] }

end Opt

namespace ERF

theorem le2_u16le (n : Nat) (h : n < 65536) :
    le2 (n % 256) (n / 256 % 256) = n := by
  simp only [le2]
  omega

theorem le4_u32le (n : Nat) (h : n < 4294967296) :
    le4 (n % 256) (n / 256 % 256) (n / 65536 % 256) (n / 16777216 % 256) = n := by
  simp only [le4]
  omega

theorem branchInBounds_false_iff (n : Nat) (b : Branch) :
    branchInBounds n b = false ↔ badChild n b := by
  simp only [branchInBounds, badChild, Bool.and_eq_false_iff, Bool.or_eq_false_iff,
    decide_eq_false_iff_not, Nat.not_lt]

/-- C1: for every buffer that reaches the validation pass of
OptimizedForest::deserialize (aligned, long enough, matching problem kind,
integral node-array length), the result is Err(MalformedForest) if and
only if some Branch of the parsed node array has a child whose flag marks
it as a further branch and whose pointer is not strictly below the
node-array length; when every non-terminal child pointer is in bounds the
validation pass succeeds and the parsed forest is returned, so
terminal-flagged pointers are never checked. -/
theorem c1_validation_pass (hasTargets : Bool) (addr align : Nat) (buffer : List Nat)
    (hal : addr % align = 0) (hlen : 20 ≤ buffer.length)
    (hdiv : (buffer.length - 8) % 12 = 0)
    (hmatch : (byteAt buffer 5 = 0) ↔ hasTargets = false) :
    (deserialize hasTargets addr align buffer = .err .malformedForest ↔
      ∃ b ∈ parseN ((buffer.length - 8) / 12) (buffer.drop 8),
        badChild ((buffer.length - 8) / 12) b) ∧
    ((∀ b ∈ parseN ((buffer.length - 8) / 12) (buffer.drop 8),
        ¬ badChild ((buffer.length - 8) / 12) b) →
      deserialize hasTargets addr align buffer = .ok
        { num_trees := le4 (byteAt buffer 0) (byteAt buffer 1)
            (byteAt buffer 2) (byteAt buffer 3),
          num_features := byteAt buffer 4,
          num_targets := if byteAt buffer 5 = 0 then none else some (byteAt buffer 5),
          nodes := parseN ((buffer.length - 8) / 12) (buffer.drop 8) }) := by
  have hguard : deserialize hasTargets addr align buffer =
      (if (parseN ((buffer.length - 8) / 12) (buffer.drop 8)).all
          (branchInBounds ((buffer.length - 8) / 12)) then
        .ok { num_trees := le4 (byteAt buffer 0) (byteAt buffer 1)
                (byteAt buffer 2) (byteAt buffer 3),
              num_features := byteAt buffer 4,
              num_targets := if byteAt buffer 5 = 0 then none
                else some (byteAt buffer 5),
              nodes := parseN ((buffer.length - 8) / 12) (buffer.drop 8) }
      else .err .malformedForest) := by
    rcases hb5 : byteAt buffer 5 with _ | k
    · have ht : hasTargets = false := hmatch.mp hb5
      simp [deserialize, hal, Nat.not_lt.mpr hlen, hb5, ht, hdiv]
    · have ht : hasTargets = true := by
        rcases hasTargets with _ | _
        · exact absurd (hmatch.mpr rfl) (by simp [hb5])
        · rfl
      simp [deserialize, hal, Nat.not_lt.mpr hlen, hb5, ht, hdiv]
  rw [hguard]
  rcases hall : (parseN ((buffer.length - 8) / 12) (buffer.drop 8)).all
      (branchInBounds ((buffer.length - 8) / 12)) with _ | _
  · have hex := List.all_eq_false.mp hall
    obtain ⟨b, hbmem, hbf⟩ := hex
    simp only [Bool.not_eq_true] at hbf
    refine ⟨⟨fun _ => ⟨b, hbmem, (branchInBounds_false_iff _ _).mp hbf⟩, fun _ => rfl⟩,
      fun hgood => ?_⟩
    exact absurd ((branchInBounds_false_iff _ _).mp hbf) (hgood b hbmem)
  · refine ⟨⟨fun h => (nomatch h), fun hex => ?_⟩, fun _ => rfl⟩
    obtain ⟨b, hbmem, hbad⟩ := hex
    have := List.all_eq_true.mp hall b hbmem
    rw [← branchInBounds_false_iff] at hbad
    simp [this] at hbad

/-- Flattened characterization of deserialize: the guard structure with the
header lets expanded, used to settle the error-path claims. -/
theorem deserialize_eq (hasTargets : Bool) (addr align : Nat) (buffer : List Nat) :
    deserialize hasTargets addr align buffer =
      if addr % align ≠ 0 then .panic
      else if buffer.length < 20 then .panic
      else if byteAt buffer 5 = 0 ↔ hasTargets = true then .err .wrongProblemType
      else if (buffer.length - 8) % 12 ≠ 0 then .panic
      else if (parseN ((buffer.length - 8) / 12) (buffer.drop 8)).all
          (branchInBounds ((buffer.length - 8) / 12)) then
        .ok { num_trees := le4 (byteAt buffer 0) (byteAt buffer 1)
                (byteAt buffer 2) (byteAt buffer 3),
              num_features := byteAt buffer 4,
              num_targets := if byteAt buffer 5 = 0 then none
                else some (byteAt buffer 5),
              nodes := parseN ((buffer.length - 8) / 12) (buffer.drop 8) }
      else .err .malformedForest := by
  by_cases h1 : addr % align = 0
  · by_cases h2 : buffer.length < 20
    · simp [deserialize, h1, h2]
    · by_cases hb5 : byteAt buffer 5 = 0 <;> rcases hasTargets with _ | _ <;>
        simp [deserialize, h1, h2, hb5]
  · simp [deserialize, h1]

/-- C5: deserialize returns Err(WrongProblemType) exactly when the buffer
reaches the problem-kind guard (aligned and at least header plus one
Branch long) and its num_targets header byte disagrees with the static
parameter P: byte zero (regression) requested as classification, or a
nonzero byte (classification) requested as regression.  In particular a
matching kind never produces this error. -/
theorem c5_wrong_problem_type (hasTargets : Bool) (addr align : Nat) (buffer : List Nat) :
    deserialize hasTargets addr align buffer = .err .wrongProblemType ↔
      addr % align = 0 ∧ 20 ≤ buffer.length ∧
        ((byteAt buffer 5 = 0 ∧ hasTargets = true) ∨
         (byteAt buffer 5 ≠ 0 ∧ hasTargets = false)) := by
  rw [deserialize_eq]
  by_cases h1 : addr % align = 0
  · by_cases h2 : buffer.length < 20
    · rw [if_neg (by simpa using h1), if_pos h2]
      exact ⟨fun h => (nomatch h), fun ⟨_, h, _⟩ => by omega⟩
    · rw [if_neg (by simpa using h1), if_neg h2]
      by_cases h3 : byteAt buffer 5 = 0 ↔ hasTargets = true
      · rw [if_pos h3]
        refine ⟨fun _ => ⟨h1, Nat.le_of_not_lt h2, ?_⟩, fun _ => rfl⟩
        rcases ht : hasTargets with _ | _
        · exact Or.inr ⟨fun hz => by simp [ht, hz] at h3, rfl⟩
        · exact Or.inl ⟨h3.mpr (by rw [ht]), rfl⟩
      · rw [if_neg h3]
        have hrhs : ¬ (addr % align = 0 ∧ 20 ≤ buffer.length ∧
            ((byteAt buffer 5 = 0 ∧ hasTargets = true) ∨
             (byteAt buffer 5 ≠ 0 ∧ hasTargets = false))) := by
          rintro ⟨-, -, hor⟩
          rcases hor with ⟨hz, ht⟩ | ⟨hnz, ht⟩
          · exact h3 (by simp [hz, ht])
          · exact h3 (by simp [ht]; exact hnz)
        by_cases h4 : (buffer.length - 8) % 12 ≠ 0
        · rw [if_pos h4]
          exact ⟨fun h => (nomatch h), fun h => absurd h hrhs⟩
        · rw [if_neg h4]
          split
          · exact ⟨fun h => (nomatch h), fun h => absurd h hrhs⟩
          · exact ⟨fun h => by simp at h, fun h => absurd h hrhs⟩
  · rw [if_pos (by simpa using h1)]
    exact ⟨fun h => (nomatch h), fun ⟨h, _⟩ => absurd h h1⟩

/-- C3 counterexample: the empty buffer at an aligned address is shorter
than header size plus one Branch, so the claim as stated demands
Err(MalformedForest); deserialize instead fails the length assert!, which
is a panic, not a returned error. -/
theorem c3_short_buffer_panics_not_err :
    deserialize true 0 8 [] = .panic ∧
    deserialize true 0 8 [] ≠ .err .malformedForest := by
  decide

/-- C3 amended: a misaligned buffer, a buffer shorter than header size plus
one Branch, or a buffer of matching problem kind whose node-array length
is not a multiple of the 12-byte Branch size, is rejected fast by
deserialize, but through an assertion failure (panic), not by returning
Err(MalformedForest); the returned MalformedForest error is reserved for
the pointer validation pass. -/
theorem c3_structural_rejection_is_panic (hasTargets : Bool) (addr align : Nat)
    (buffer : List Nat)
    (h : addr % align ≠ 0 ∨ buffer.length < 20 ∨
      (¬ (byteAt buffer 5 = 0 ↔ hasTargets = true) ∧ (buffer.length - 8) % 12 ≠ 0)) :
    deserialize hasTargets addr align buffer = .panic := by
  rw [deserialize_eq]
  rcases h with h1 | h2 | ⟨h3, h4⟩
  · rw [if_pos h1]
  · by_cases h1 : addr % align ≠ 0
    · rw [if_pos h1]
    · rw [if_neg h1, if_pos h2]
  · by_cases h1 : addr % align ≠ 0
    · rw [if_pos h1]
    · by_cases h2 : buffer.length < 20
      · rw [if_neg h1, if_pos h2]
      · rw [if_neg h1, if_neg h2, if_neg h3, if_pos h4]

/-- C6: deserialize never compares the num_trees header field with the
node-array length: this 20-byte buffer declares five trees but carries a
single Branch (both children terminal, so the validation pass checks
nothing), and deserialize accepts it, leaving num_trees greater than the
node count that the unchecked root lookups of predict rely on. -/
theorem c6_num_trees_unchecked :
    deserialize true 0 8
        [5, 0, 0, 0, 1, 1, 0, 0, 0, 0, 0, 0, 0, 0, 0, 0, 0, 0, 0, 192] =
      .ok { num_trees := 5, num_features := 1, num_targets := some 1,
            nodes := [{ left := 0, right := 0, splitBits := 0,
                        flags := 3221225472 }] } ∧
    ([{ left := 0, right := 0, splitBits := 0,
        flags := 3221225472 }] : List Branch).length < 5 := by
  decide

theorem branchBytes_length (b : Branch) : (branchBytes b).length = 12 := by
  simp [branchBytes, u16le, u32le]

theorem parseBranch_branchBytes (b : Branch) (hb : b.wf) :
    parseBranch (branchBytes b) = b := by
  obtain ⟨h1, h2, h3, h4⟩ := hb
  simp only [parseBranch, branchBytes, u16le, u32le, byteAt, List.cons_append,
    List.nil_append, List.getD_cons_zero, List.getD_cons_succ]
  cases b
  simp only [Branch.mk.injEq]
  refine ⟨le2_u16le _ h1, le2_u16le _ h2, le4_u32le _ h3, le4_u32le _ h4⟩

theorem parseN_flatMap (nodes : List Branch) (hwf : ∀ b ∈ nodes, b.wf) :
    parseN nodes.length (nodes.flatMap branchBytes) = nodes := by
  induction nodes with
  | nil => rfl
  | cons b rest ih =>
    have hb : b.wf := hwf b (List.mem_cons_self b rest)
    have hlen : (branchBytes b).length = 12 := branchBytes_length b
    simp only [List.flatMap_cons, List.length_cons, parseN]
    rw [show (12 : Nat) = (branchBytes b).length from hlen.symm,
      List.take_left, List.drop_left]
    rw [parseBranch_branchBytes b hb, ih (fun x hx => hwf x (List.mem_cons_of_mem b hx))]

theorem flatMap_branchBytes_length (nodes : List Branch) :
    (nodes.flatMap branchBytes).length = 12 * nodes.length := by
  induction nodes with
  | nil => rfl
  | cons b rest ih =>
    simp only [List.flatMap_cons, List.length_append, branchBytes_length, ih,
      List.length_cons]
    ring

theorem to_bytes_length (f : OptimizedForest) :
    f.to_bytes.length = 8 + 12 * f.nodes.length := by
  simp only [OptimizedForest.to_bytes, List.length_append, List.length_cons,
    List.length_nil, u32le, flatMap_branchBytes_length]

/-- The eight header bytes of to_bytes, followed by the node records. -/
theorem to_bytes_decomp (f : OptimizedForest) :
    f.to_bytes =
      f.num_trees % 256 :: f.num_trees / 256 % 256 :: f.num_trees / 65536 % 256 ::
      f.num_trees / 16777216 % 256 :: f.num_features ::
      (match f.num_targets with | some b => b | none => 0) :: 0 :: 0 ::
      f.nodes.flatMap branchBytes := by
  simp [OptimizedForest.to_bytes, u32le]

/-- C4: serialization is the definitional byte layout (header of u32
num_trees, u8 num_features, u8 num_targets, two padding bytes, then the
12-byte little-endian Branch records with no extra framing, as the
to_bytes definition states) and is a function of the forest, hence
deterministic; and for every validly constructed forest (in-range fields,
at least one node, all non-terminal child pointers in bounds), on a
suitably aligned copy and with the matching expected problem type,
deserialize of to_bytes returns exactly the original forest - same
num_trees, num_features, num_targets and node array - so predictions
coincide with the original on every feature vector. -/
theorem c4_roundtrip (hasTargets : Bool) (addr align : Nat) (f : OptimizedForest)
    (hwf : f.wf) (hne : f.nodes ≠ [])
    (hbounds : ∀ b ∈ f.nodes, ¬ badChild f.nodes.length b)
    (hmatch : f.num_targets.isSome = hasTargets)
    (hal : addr % align = 0) :
    deserialize hasTargets addr align f.to_bytes = .ok f := by
  obtain ⟨hnt, hnf, htg, hnodes⟩ := hwf
  have hlen : f.to_bytes.length = 8 + 12 * f.nodes.length := to_bytes_length f
  have hn1 : 1 ≤ f.nodes.length := by
    rcases hcn : f.nodes with _ | ⟨b, rest⟩
    · exact absurd hcn hne
    · simp [hcn]
  have hdec := to_bytes_decomp f
  have hb0 : byteAt f.to_bytes 0 = f.num_trees % 256 := by rw [hdec]; rfl
  have hb1 : byteAt f.to_bytes 1 = f.num_trees / 256 % 256 := by rw [hdec]; rfl
  have hb2 : byteAt f.to_bytes 2 = f.num_trees / 65536 % 256 := by rw [hdec]; rfl
  have hb3 : byteAt f.to_bytes 3 = f.num_trees / 16777216 % 256 := by rw [hdec]; rfl
  have hb4 : byteAt f.to_bytes 4 = f.num_features := by rw [hdec]; rfl
  have hb5 : byteAt f.to_bytes 5 =
      (match f.num_targets with | some b => b | none => 0) := by rw [hdec]; rfl
  have hdrop : f.to_bytes.drop 8 = f.nodes.flatMap branchBytes := by rw [hdec]; rfl
  rw [deserialize_eq]
  rw [if_neg (by simpa using hal)]
  rw [if_neg (show ¬ f.to_bytes.length < 20 by omega)]
  have hguard : ¬ (byteAt f.to_bytes 5 = 0 ↔ hasTargets = true) := by
    rw [hb5]
    rcases hts : f.num_targets with _ | t
    · rw [hts] at hmatch
      simp only [Option.isSome_none] at hmatch
      simp [← hmatch]
    · rw [hts] at hmatch
      simp only [Option.isSome_some] at hmatch
      have ht0 : 0 < t := (htg t hts).1
      simp only [← hmatch]
      intro hcontr
      exact absurd (hcontr.mpr (by trivial)) (by omega)
  rw [if_neg hguard]
  have hsz : f.to_bytes.length - 8 = 12 * f.nodes.length := by omega
  rw [if_neg (show ¬ (f.to_bytes.length - 8) % 12 ≠ 0 by
    rw [hsz]; simp [Nat.mul_mod_right])]
  have hslice : (f.to_bytes.length - 8) / 12 = f.nodes.length := by
    rw [hsz]; exact Nat.mul_div_cancel_left _ (by norm_num)
  rw [hslice, hdrop, parseN_flatMap f.nodes hnodes]
  have hall : f.nodes.all (branchInBounds f.nodes.length) = true := by
    rw [List.all_eq_true]
    intro b hb
    rcases hbv : branchInBounds f.nodes.length b with _ | _
    · exact absurd ((branchInBounds_false_iff _ _).mp hbv) (hbounds b hb)
    · rfl
  rw [if_pos hall]
  have e1 : le4 (byteAt f.to_bytes 0) (byteAt f.to_bytes 1)
      (byteAt f.to_bytes 2) (byteAt f.to_bytes 3) = f.num_trees := by
    rw [hb0, hb1, hb2, hb3]
    exact le4_u32le _ hnt
  have e3 : (if byteAt f.to_bytes 5 = 0 then none else some (byteAt f.to_bytes 5)) =
      f.num_targets := by
    rw [hb5]
    rcases hts : f.num_targets with _ | t
    · simp
    · have ht0 : 0 < t := (htg t hts).1
      rw [if_neg (show ¬ t = 0 by omega)]
  rw [e1, hb4, e3]

theorem firstOccs_append (l : List Nat) (p : Nat) :
    firstOccs (l ++ [p]) =
      if p ∈ firstOccs l then firstOccs l else firstOccs l ++ [p] := by
  simp [firstOccs, List.foldl_append]

theorem mem_firstOccs (l : List Nat) : ∀ x, x ∈ firstOccs l ↔ x ∈ l := by
  induction l using List.reverseRecOn with
  | nil => intro x; simp [firstOccs]
  | append_singleton l p ih =>
    intro x
    rw [firstOccs_append]
    by_cases hp : p ∈ firstOccs l
    · rw [if_pos hp]
      simp only [List.mem_append, List.mem_singleton, ih]
      exact ⟨fun h => Or.inl h, fun h => h.elim id (fun he => he ▸ (ih p).mp hp)⟩
    · rw [if_neg hp]
      simp [ih]

/-- The LinearMap vote tally built by the prediction loop, in closed form:
its keys are the distinct per-tree predictions in first-occurrence order,
and the count stored for a key is its number of votes minus one (the
first insert stores 0 and each later vote increments). -/
theorem voteTally_eq (preds : List Nat) :
    preds.foldl addVote [] =
      (firstOccs preds).map (fun k => (k, preds.count k - 1)) := by
  induction preds using List.reverseRecOn with
  | nil => rfl
  | append_singleton l p ih =>
    rw [List.foldl_append, List.foldl_cons, List.foldl_nil, ih, firstOccs_append]
    by_cases hp : p ∈ firstOccs l
    · rw [if_pos hp]
      have hpl : p ∈ l := (mem_firstOccs l p).mp hp
      have hany : (((firstOccs l).map fun k => (k, l.count k - 1)).any
          (fun kv => kv.1 == p)) = true := by
        rw [List.any_eq_true]
        exact ⟨(p, l.count p - 1), List.mem_map_of_mem _ hp, by simp⟩
      simp only [addVote, hany, if_true]
      rw [List.map_map]
      apply List.map_congr_left
      intro k hk
      by_cases hkp : k = p
      · subst hkp
        have hc1 : 1 ≤ l.count k := List.one_le_count_iff.mpr hpl
        simp only [Function.comp_apply, beq_self_eq_true, if_true]
        have : (l ++ [k]).count k = l.count k + 1 := by
          simp [List.count_append]
        rw [this]
        refine Prod.ext rfl ?_
        simp only
        omega
      · simp only [Function.comp_apply, beq_iff_eq, hkp, if_false]
        have : (l ++ [p]).count k = l.count k := by
          simp [List.count_append, List.count_singleton]
          omega
        rw [this]
    · rw [if_neg hp]
      have hpl : p ∉ l := fun h => hp ((mem_firstOccs l p).mpr h)
      have hany : (((firstOccs l).map fun k => (k, l.count k - 1)).any
          (fun kv => kv.1 == p)) = false := by
        rw [List.any_eq_false]
        intro kv hmem
        obtain ⟨k0, hk0, hke⟩ := List.mem_map.mp hmem
        have hk0l : k0 ≠ p := fun he => hpl (he ▸ (mem_firstOccs l k0).mp hk0)
        subst hke
        simp [hk0l]
      simp only [addVote, hany, Bool.false_eq_true, if_false]
      rw [List.map_append]
      congr 1
      · apply List.map_congr_left
        intro k hk
        have hkp : k ≠ p := fun he => hpl (he ▸ (mem_firstOccs l k).mp hk)
        have : (l ++ [p]).count k = l.count k := by
          simp [List.count_append, List.count_singleton]
          omega
        rw [this]
      · have hc0 : l.count p = 0 := List.count_eq_zero.mpr hpl
        have hc1 : (l ++ [p]).count p = 1 := by simp [List.count_append, hc0]
        simp [hc1, hc0]

/-- maxGo (the max_by_key fold) returns the last element, in list order,
whose count attains the maximum over the candidate and the rest of the
list. -/
theorem maxGo_getLast (l : List (Nat × Nat)) : ∀ best : Nat × Nat,
    some (maxGo best l) =
      ((best :: l).filter (fun kv => decide (maxVal (best :: l) ≤ kv.2))).getLast? := by
  induction l with
  | nil =>
    intro best
    simp [maxGo, maxVal, List.filter_cons]
  | cons kv t ih =>
    intro best
    have hstep : maxGo best (kv :: t) = maxGo (if best.2 ≤ kv.2 then kv else best) t := rfl
    rw [hstep]
    by_cases hc : best.2 ≤ kv.2
    · rw [if_pos hc, ih kv]
      have hM : maxVal (best :: kv :: t) = maxVal (kv :: t) := by
        simp only [maxVal]
        omega
      rw [hM]
      by_cases hb : maxVal (kv :: t) ≤ best.2
      · have hkv : maxVal (kv :: t) ≤ kv.2 := by
          simp only [maxVal] at hb ⊢
          omega
        conv_rhs => rw [List.filter_cons]
        rw [if_pos (decide_eq_true hb)]
        rw [List.filter_cons, if_pos (decide_eq_true hkv)]
        exact (List.getLast?_cons_cons ..).symm
      · conv_rhs => rw [List.filter_cons]
        rw [if_neg (by simpa using hb)]
    · rw [if_neg hc, ih best]
      have hkv : ¬ maxVal (best :: t) ≤ kv.2 := by
        simp only [maxVal] at hc ⊢
        omega
      have hM : maxVal (best :: kv :: t) = maxVal (best :: t) := by
        simp only [maxVal]
        omega
      rw [hM]
      have h2 : List.filter (fun x => decide (maxVal (best :: t) ≤ x.2)) (kv :: t) =
          List.filter (fun x => decide (maxVal (best :: t) ≤ x.2)) t := by
        rw [List.filter_cons, if_neg (by simpa using hkv)]
      conv_rhs => rw [List.filter_cons, h2]
      conv_lhs => rw [List.filter_cons]

theorem classPredict_eq_tally (f : OptimizedForest) (feats : List ℚ) :
    classPredict f feats =
      (maxByCountLast ((predsList f feats).foldl addVote [])).map Prod.fst := by
  simp only [classPredict, predsList, List.foldl_map]

/-- C2 (amended): the classification predictor aggregates the per-tree
predictions into the LinearMap tally (keys in first-occurrence order,
stored count equal to votes minus one) and returns the key of the LAST
entry, in insertion order, whose count attains the maximum - Rust's
max_by_key keeps the later element on equal keys - so ties are broken in
favour of the id whose first vote arrived last, not first.  The
aggregator is a pure function of the per-tree prediction sequence, hence
deterministic. -/
theorem c2_vote_aggregation (f : OptimizedForest) (feats : List ℚ) :
    classPredict f feats =
      (((predsList f feats).foldl addVote []).filter
        (fun kv => decide (maxVal ((predsList f feats).foldl addVote []) ≤ kv.2))).getLast?.map
        Prod.fst ∧
    (predsList f feats).foldl addVote [] =
      (firstOccs (predsList f feats)).map
        (fun k => (k, (predsList f feats).count k - 1)) := by
  rw [classPredict_eq_tally]
  refine ⟨?_, voteTally_eq _⟩
  rcases hv : (predsList f feats).foldl addVote [] with _ | ⟨kv, t⟩
  · rfl
  · simp only [maxByCountLast]
    rw [maxGo_getLast t kv]

/-- C2 counterexample: on feature vector [0.8, 2.0] tree 0 votes class 2
first and tree 1 votes class 1 second; both classes tie with one vote
each, yet predict returns class 1, the id inserted last into the tally -
the claimed first-inserted tie-break would return class 2. -/
theorem c2_tie_goes_to_last_not_first :
    treePredict exampleTieForest [4/5, 2] 0 = 2 ∧
    treePredict exampleTieForest [4/5, 2] 1 = 1 ∧
    (predsList exampleTieForest [4/5, 2]).count 2 =
      (predsList exampleTieForest [4/5, 2]).count 1 ∧
    classPredict exampleTieForest [4/5, 2] = some 1 ∧ (1 : Nat) ≠ 2 := by
  have ha0 : 3221225472 &&& 1073741823 = 0 := by decide
  have ha1 : 3221225473 &&& 1073741823 = 1 := by decide
  have hb1 : 3221225472 >>> 31 = 1 := by decide
  have hb2 : 3221225472 >>> 30 = 3 := by decide
  have hb3 : 3221225473 >>> 31 = 1 := by decide
  have hb4 : 3221225473 >>> 30 = 3 := by decide
  have ht0 : treePredict exampleTieForest [4/5, 2] 0 = 2 := by
    norm_num [treePredict, exampleTieForest, treeGo, Branch.split_at, Branch.split_with,
      Flags.split_var_idx, Flags.left_prediction, Flags.right_prediction, f32val,
      ha0, ha1, hb1, hb2, hb3, hb4]
  have ht1 : treePredict exampleTieForest [4/5, 2] 1 = 1 := by
    norm_num [treePredict, exampleTieForest, treeGo, Branch.split_at, Branch.split_with,
      Flags.split_var_idx, Flags.left_prediction, Flags.right_prediction, f32val,
      ha0, ha1, hb1, hb2, hb3, hb4]
  have hpl : predsList exampleTieForest [4/5, 2] = [2, 1] := by
    have hnt : exampleTieForest.num_trees = 2 := rfl
    simp only [predsList, hnt]
    rw [show List.range 2 = [0, 1] by rfl]
    rw [List.map_cons, List.map_cons, List.map_nil, ht0, ht1]
  refine ⟨ht0, ht1, by rw [hpl]; decide, ?_, by omega⟩
  rw [classPredict_eq_tally, hpl]
  rfl

/-- C1 witness: the validation-pass theorem applied to badPtrBuffer
rejects it with MalformedForest. -/
theorem c1_validation_pass_witness :
    deserialize true 0 8 badPtrBuffer = .err .malformedForest :=
  (c1_validation_pass true 0 8 badPtrBuffer (by decide) (by decide) (by decide)
    (by decide)).1.mpr (by decide)

/-- C3 witness: a misaligned base address is rejected by panic. -/
theorem c3_structural_rejection_witness : deserialize true 3 8 [] = .panic :=
  c3_structural_rejection_is_panic true 3 8 [] (Or.inl (by decide))

/-- C4 witness: the round-trip theorem applied to roundTripForest. -/
theorem c4_roundtrip_witness :
    deserialize true 0 8 roundTripForest.to_bytes = .ok roundTripForest :=
  c4_roundtrip true 0 8 roundTripForest (by decide) (by decide) (by decide)
    (by decide) (by decide)

end ERF

namespace Opt

/-- C7: whenever Forest::from_serialized succeeds, every Branch at
flattened index i has both children strictly beyond i (the function
asserts exactly this before returning, so an Ok result can never violate
it). -/
theorem c7_forward_refs {π : Type} (input : List (SNode π)) (F : Forest π)
    (h : from_serialized input = some F) :
    ∀ (i : Nat) (b : Branch), F.nodes[i]? = some (Node.branch b) →
      i < b.left ∧ i < b.right := by
  simp only [from_serialized] at h
  split at h
  · split at h
    case isTrue h2 =>
      cases h
      intro i b hib
      simp only at hib
      have hmem := List.getElem?_mem (by rw [List.getElem?_enum, hib]; rfl :
        ((treesOf input (sortedRootIdxs input).length).enum.map
            (fun it => (it.2.headD (.branch ⟨0, 0, 0, 0⟩)).offset
              ((treesOf input (sortedRootIdxs input).length).map List.length) it.1) ++
          (treesOf input (sortedRootIdxs input).length).enum.flatMap
            (fun it => (it.2.drop 1).map (fun n => n.offset
              ((treesOf input (sortedRootIdxs input).length).map List.length) it.1))).enum[i]? =
          some (i, Node.branch b))
      have hall := List.all_eq_true.mp h2 _ hmem
      simp only [Bool.and_eq_true, decide_eq_true_eq] at hall
      exact hall
    case isFalse => cases h
  · cases h

/-- C8: a successful Forest::from_serialized lays the flattened array out
as the tree roots first (in tree order) followed by each tree's remaining
nodes in per-tree order, tree by tree; every Branch of tree t has its
0-based per-tree child ordinals shifted by exactly
sum of sizes of the trees before t plus (num_trees - t - 1). -/
theorem c8_layout {π : Type} (input : List (SNode π)) (F : Forest π)
    (h : from_serialized input = some F) :
    F.num_trees = (treesOf input (sortedRootIdxs input).length).length ∧
    F.nodes =
      (treesOf input (sortedRootIdxs input).length).enum.map (fun it =>
        offsetNodeBy
          ((((treesOf input (sortedRootIdxs input).length).map List.length).take it.1).sum +
            ((treesOf input (sortedRootIdxs input).length).length - it.1 - 1))
          (it.2.headD (.branch ⟨0, 0, 0, 0⟩))) ++
      (treesOf input (sortedRootIdxs input).length).enum.flatMap (fun it =>
        (it.2.drop 1).map (offsetNodeBy
          ((((treesOf input (sortedRootIdxs input).length).map List.length).take it.1).sum +
            ((treesOf input (sortedRootIdxs input).length).length - it.1 - 1)))) := by
  have hoff : ∀ (it : Nat × List (Node π)),
      it ∈ (treesOf input (sortedRootIdxs input).length).enum →
      ∀ n : Node π,
        n.offset ((treesOf input (sortedRootIdxs input).length).map List.length) it.1 =
        offsetNodeBy
          ((((treesOf input (sortedRootIdxs input).length).map List.length).take it.1).sum +
            ((treesOf input (sortedRootIdxs input).length).length - it.1 - 1)) n := by
    rintro ⟨i, t⟩ hmem n
    have hi : i < (treesOf input (sortedRootIdxs input).length).length :=
      (List.mem_enum hmem).1
    have hlen : ((treesOf input (sortedRootIdxs input).length).map List.length).length =
        (treesOf input (sortedRootIdxs input).length).length := List.length_map _ _
    rcases n with p | b
    · rfl
    · simp only [Node.offset, offsetNodeBy]
      have : (((treesOf input (sortedRootIdxs input).length).map List.length).take i).sum +
            ((treesOf input (sortedRootIdxs input).length).map List.length).length - (i + 1) =
          (((treesOf input (sortedRootIdxs input).length).map List.length).take i).sum +
            ((treesOf input (sortedRootIdxs input).length).length - i - 1) := by
        rw [hlen]
        omega
      rw [this]
  simp only [from_serialized] at h
  split at h
  · split at h
    case isTrue h2 =>
      cases h
      refine ⟨by simp, ?_⟩
      dsimp only
      congr 1
      · apply List.map_congr_left
        intro it hmem
        exact hoff it hmem _
      · apply List.flatMap_congr
        intro it hmem
        apply List.map_congr_left
        intro n _
        exact hoff it hmem n
    case isFalse => cases h
  · cases h

theorem pass1_length (all : List (Node Nat)) :
    ∀ (l : List (Node Nat)) (k : Nat), (pass1 all l k).length = l.length := by
  intro l
  induction l with
  | nil => intro k; rfl
  | cons n rest ih =>
    intro k
    simp only [pass1, List.length_cons, ih]

theorem pass1_getD (all : List (Node Nat)) :
    ∀ (l : List (Node Nat)) (k j : Nat), j < l.length →
      (pass1 all l k).getD j none =
        TransitionBranch.from_node all (l.getD j (.leaf 0))
          (k + ((l.take (j + 1)).filter Node.is_branch).length - 1) := by
  intro l
  induction l with
  | nil => intro k j hj; simp at hj
  | cons n rest ih =>
    intro k j hj
    rcases j with _ | j
    · rcases hn : n with p | b
      · simp [pass1, Node.is_branch, hn, TransitionBranch.from_node, List.filter_cons]
      · simp [pass1, Node.is_branch, hn, List.filter_cons]
    · have hj' : j < rest.length := by simpa using hj
      rcases hn : n with p | b
      · simp only [pass1, Node.is_branch, Bool.false_eq_true, if_false,
          List.getD_cons_succ, List.take_succ_cons, List.filter_cons]
        exact ih k j hj'
      · simp only [pass1, Node.is_branch, if_true, List.getD_cons_succ,
          List.take_succ_cons, List.filter_cons, List.length_cons]
        rw [ih (k + 1) j hj']
        congr 1
        omega

theorem branchRank_succ (nodes : List (Node Nat)) (p : Nat) (hp : p < nodes.length) :
    branchRank nodes (p + 1) =
      branchRank nodes p + (if (nodes[p]).is_branch then 1 else 0) := by
  unfold branchRank
  rw [List.take_succ, List.getElem?_eq_getElem hp]
  simp only [Option.toList_some, List.filter_append, List.length_append]
  rcases hb : (nodes[p]).is_branch with _ | _ <;> simp [List.filter_cons, hb]

theorem resolveChild_spec (nodes : List (Node Nat)) (c : Nat) (hc : c < nodes.length) :
    resolveChild (pass1 nodes nodes 0)
      (match nodes.getD c (.leaf 0) with
       | .leaf l => TransitionNode.leaf l
       | .branch _ => TransitionNode.branch c) = some (childInline nodes c) := by
  rcases hgc : nodes.getD c (.leaf 0) with w | cb
  · simp only [resolveChild, childInline, hgc]
  · simp only [resolveChild, childInline, hgc]
    rw [pass1_getD nodes nodes 0 c hc, hgc]
    simp only [TransitionBranch.from_node, Option.map_some]
    have hgc2 : nodes[c] = Node.branch cb := by
      rw [← List.getD_eq_getElem nodes (.leaf 0) hc]
      exact hgc
    have hbr := branchRank_succ nodes c hc
    rw [hgc2] at hbr
    simp only [Node.is_branch, if_true] at hbr
    have hcount : ((nodes.take (c + 1)).filter Node.is_branch).length =
        branchRank nodes c + 1 := by
      unfold branchRank at hbr
      exact hbr
    rw [hcount]
    simp

theorem optimize_aux (nodes : List (Node Nat))
    (hwf : ∀ n ∈ nodes, branchBounded nodes.length n) :
    ∀ (m p : Nat), m = nodes.length - p →
      ((pass1 nodes (nodes.drop p) (branchRank nodes p)).map
        (update_pointers (pass1 nodes nodes 0))).filterMap id =
      ((nodes.drop p).enumFrom p).filterMap (optSpecFn nodes) := by
  intro m
  induction m with
  | zero =>
    intro p hp
    have hnil : nodes.drop p = [] := List.drop_eq_nil_of_le (by omega)
    rw [hnil]
    rfl
  | succ m ih =>
    intro p hp
    have hplt : p < nodes.length := by omega
    have hbr := branchRank_succ nodes p hplt
    rw [List.drop_eq_getElem_cons hplt]
    rcases hx : nodes[p] with v | b
    · rw [hx] at hbr
      simp only [Node.is_branch, Bool.false_eq_true, if_false, Nat.add_zero] at hbr
      simp only [pass1, Node.is_branch, Bool.false_eq_true, if_false,
        TransitionBranch.from_node, List.map_cons, List.enumFrom]
      rw [show update_pointers (pass1 nodes nodes 0) none = none from rfl]
      rw [List.filterMap_cons_none (by rfl), List.filterMap_cons_none (by rfl)]
      rw [← hbr]
      exact ih (p + 1) (by omega)
    · rw [hx] at hbr
      simp only [Node.is_branch, if_true] at hbr
      have hmem : Node.branch b ∈ nodes := hx ▸ List.getElem_mem hplt
      obtain ⟨hl, hr⟩ := hwf _ hmem
      simp only [pass1, Node.is_branch, if_true, TransitionBranch.from_node,
        List.map_cons, List.enumFrom, Nat.add_sub_cancel]
      rw [show update_pointers (pass1 nodes nodes 0)
          (some { id := branchRank nodes p, split_with := b.split_with,
                  split_at := b.split_at,
                  left := match nodes.getD b.left (.leaf 0) with
                    | .leaf l => .leaf l
                    | .branch _ => .branch b.left,
                  right := match nodes.getD b.right (.leaf 0) with
                    | .leaf l => .leaf l
                    | .branch _ => .branch b.right }) =
          some (ERF.Branch.new b.split_with b.split_at
            (childInline nodes b.left).2 (childInline nodes b.right).2
            (childInline nodes b.left).1 (childInline nodes b.right).1) from by
        simp only [update_pointers, Option.some_bind]
        rw [resolveChild_spec nodes b.left hl, resolveChild_spec nodes b.right hr]
        rfl]
      rw [List.filterMap_cons_some (by rfl)]
      rw [List.filterMap_cons_some (show optSpecFn nodes (p, Node.branch b) =
          some (ERF.Branch.new b.split_with b.split_at
            (childInline nodes b.left).2 (childInline nodes b.right).2
            (childInline nodes b.left).1 (childInline nodes b.right).1) from rfl)]
      rw [← hbr]
      rw [ih (p + 1) (by omega)]

theorem filterMap_optSpec_length (nodes : List (Node Nat)) :
    ∀ (l : List (Node Nat)) (p : Nat),
      ((List.enumFrom p l).filterMap (optSpecFn nodes)).length =
        (l.filter Node.is_branch).length := by
  intro l
  induction l with
  | nil => intro p; rfl
  | cons n rest ih =>
    intro p
    rcases n with v | b
    · simp only [List.enumFrom]
      rw [List.filterMap_cons_none (by rfl)]
      simp only [List.filter_cons, Node.is_branch, Bool.false_eq_true, if_false]
      exact ih (p + 1)
    · simp only [List.enumFrom]
      rw [List.filterMap_cons_some (show optSpecFn nodes (p, Node.branch b) =
        some (ERF.Branch.new b.split_with b.split_at
          (childInline nodes b.left).2 (childInline nodes b.right).2
          (childInline nodes b.left).1 (childInline nodes b.right).1) from rfl)]
      simp only [List.filter_cons, Node.is_branch, if_true, List.length_cons]
      rw [ih (p + 1)]

theorem filter_branch_leaf_split {π : Type} (l : List (Node π)) :
    (l.filter Node.is_branch).length + (l.filter Node.is_leaf).length = l.length := by
  induction l with
  | nil => rfl
  | cons n rest ih =>
    rcases n with v | b <;>
      simp only [List.filter_cons, Node.is_branch, Node.is_leaf, if_true, if_false,
        Bool.false_eq_true, List.length_cons] <;>
      omega

/-- C9: Forest::optimize_nodes (classification) returns exactly the Branch
nodes of the flattened forest in order, leaves dropped: the output row
for the branch at flattened index j is Branch::new of its split data with
each Leaf child replaced by its raw terminal class id under a set
terminal flag, and each Branch child replaced by that branch's dense
optimized id (its rank among branches, not its flattened index); the
output length is the branch count, which equals the total node count
minus the leaf count. -/
theorem c9_optimize_nodes (nodes : List (Node Nat))
    (hwf : ∀ n ∈ nodes, branchBounded nodes.length n) :
    optimize_nodes nodes = nodes.enum.filterMap (optSpecFn nodes) ∧
    (optimize_nodes nodes).length = (nodes.filter Node.is_branch).length ∧
    (optimize_nodes nodes).length + (nodes.filter Node.is_leaf).length = nodes.length := by
  have h0 := optimize_aux nodes hwf nodes.length 0 (by omega)
  simp only [List.drop_zero] at h0
  have hrk : branchRank nodes 0 = 0 := rfl
  rw [hrk] at h0
  have h1 : optimize_nodes nodes = nodes.enum.filterMap (optSpecFn nodes) := h0
  refine ⟨h1, ?_, ?_⟩
  · rw [h1]
    exact filterMap_optSpec_length nodes nodes 0
  · rw [h1, show nodes.enum = List.enumFrom 0 nodes from rfl,
      filterMap_optSpec_length nodes nodes 0]
    exact filter_branch_leaf_split nodes

/-- C10 (intended regression semantics, evaluated on the in-repo
non-optimized predictor, since the optimized regression path calls the
commented-out NodePointer::as_f32 and is unimplemented): a traversal
selecting terminal 10.0 in tree 0 and terminal 20.0 in tree 1 yields
(10 + 20) / 2 = 15. -/
theorem c10_regression_example :
    goNode exampleRegForest.nodes [2/5] 7 (exampleRegForest.nodes.getD 0 (.leaf 0)) = 10 ∧
    goNode exampleRegForest.nodes [2/5] 7 (exampleRegForest.nodes.getD 1 (.leaf 0)) = 20 ∧
    Forest.predict exampleRegForest [2/5] = 15 := by
  have hg0 : goNode exampleRegForest.nodes [2/5] 7
      (exampleRegForest.nodes.getD 0 (.leaf 0)) = 10 := by
    norm_num [goNode, exampleRegForest, ERF.f32val]
  have hg1 : goNode exampleRegForest.nodes [2/5] 7
      (exampleRegForest.nodes.getD 1 (.leaf 0)) = 20 := by
    norm_num [goNode, exampleRegForest, ERF.f32val]
  refine ⟨hg0, hg1, ?_⟩
  have hn : exampleRegForest.nodes.length + 1 = 7 := rfl
  have ht : exampleRegForest.num_trees = 2 := rfl
  simp only [Forest.predict, hn, ht, show List.range 2 = [0, 1] from rfl,
    List.map_cons, List.map_nil, hg0, hg1, List.sum_cons, List.sum_nil]
  norm_num

/-- C7 witness: from_serialized accepts sampleRows, and the root branch at
flattened index 0 indeed references only larger indices. -/
theorem c7_forward_refs_witness : (0 : Nat) < 2 ∧ (0 : Nat) < 3 :=
  c7_forward_refs sampleRows sampleFlatForest (by decide) 0
    ⟨0, 1056964608, 2, 3⟩ (by decide)

/-- C8 witness: the layout theorem applied to sampleRows. -/
theorem c8_layout_witness :
    sampleFlatForest.num_trees =
      (treesOf sampleRows (sortedRootIdxs sampleRows).length).length :=
  (c8_layout sampleRows sampleFlatForest (by decide)).1

/-- C9 witness: the optimization theorem applied to the flattened sample
forest (all child indices in bounds). -/
theorem c9_optimize_nodes_witness :
    optimize_nodes sampleFlatForest.nodes =
      sampleFlatForest.nodes.enum.filterMap (optSpecFn sampleFlatForest.nodes) :=
  (c9_optimize_nodes sampleFlatForest.nodes (by decide)).1

end Opt

